import Mathlib

/-!
Verification of the ttnw portfolio-manager frontend and of the spec of its
strategy backtesting engine.

Pure fragments of the JavaScript source are embedded as Lean definitions:
numbers become `ℚ` (exact rational arithmetic; the JS code performs ordinary
IEEE arithmetic, but every claim checked here is about exact formulas and
sign/zero guards, which the rational model captures), real-exponent
`Math.pow` becomes `Real.rpow`, fallible code returns `Except`/`Option`.
Parts of the repository that are not present under the frontend sources
(the backend simulation engine and metrics calculator) are modelled from the
specification text; such definitions carry a doc comment starting with
`Modelled from the spec:`.
-/

namespace Ttnw

/-! ## fetchApi (src/frontend/src/api.js, lines 3-26)

A response is modelled by its `ok` flag, status text, and body.  The body is
`none` when `response.json()` would reject (unparseable body), otherwise a
`JsonBody` recording the `detail` field (absent/falsy → `none`) and the
`JSON.stringify` rendering of the whole object. -/

/-- The `detail` field of an error body: either a plain string or an array of
validation items, each contributing `loc[1]` and `msg`. -/
inductive DetailField where
  | str (s : String)
  | arr (items : List (String × String))
deriving DecidableEq, Repr

/-- A parsed JSON body as far as `fetchApi` inspects it. -/
structure JsonBody where
  detail : Option DetailField
  stringified : String
deriving DecidableEq, Repr

/-- An HTTP response as far as `fetchApi` inspects it. -/
structure HttpResponse where
  ok : Bool
  statusText : String
  body : Option JsonBody
deriving DecidableEq, Repr

/-- The error message computed inside the `if (!response.ok)` branch of
`fetchApi`: `detail` joined per-field when it is an array, `detail` itself
when it is a string, `JSON.stringify(errorData)` when the body parses but has
no truthy `detail`, and `response.statusText` when `response.json()` rejects. -/
def errorMessageOf (resp : HttpResponse) : String :=
  match resp.body with
  | none => resp.statusText
  | some b =>
    match b.detail with
    | some (DetailField.str s) => s
    | some (DetailField.arr items) =>
        String.intercalate "\n" (items.map fun p => p.1 ++ " - " ++ p.2)
    | none => b.stringified

/-- Embedding of `fetchApi`: on an ok response it returns the parsed JSON
body (rejecting like `response.json()` when the body is unparseable);
otherwise it throws an `Error` carrying `errorMessageOf`. -/
def fetchApi (resp : HttpResponse) : Except String JsonBody :=
  if resp.ok then
    match resp.body with
    | some b => Except.ok b
    | none => Except.error "SyntaxError: unexpected end of JSON input"
  else
    Except.error (errorMessageOf resp)

/-! ## Transaction form submission
(src/unnamed/part_001 `handleSubmit`, lines 713-769; the same request body is
built by `handleSave` in src/unnamed/part_002 lines 206-235 and
src/unnamed/part_004 lines 388-417.) -/

/-- Transaction types offered by the transaction form. -/
inductive TxType where
  | buy
  | sell
  | dividend
  | deposit
  | withdrawal
deriving DecidableEq, Repr

/-- The state of the new-transaction form.  Numeric text fields are `Option ℚ`:
`none` models the empty string (falsy in the JS guards, `|| 0` in the parses);
`some q` models a field that parses to the number `q`. -/
structure TxForm where
  portfolioId : Option Nat
  assetId : Option Nat
  txType : Option TxType
  quantity : Option ℚ
  price : Option ℚ
  fee : Option ℚ
  tax : Option ℚ
  txDate : Option Nat
  isCashAsset : Bool
deriving DecidableEq, Repr

/-- The JSON request body `handleSubmit`/`handleSave` posts to
`/transactions/`. -/
structure TxRequestBody where
  quantity : ℚ
  price : ℚ
  fee : ℚ
  tax : ℚ
deriving DecidableEq, Repr

/-- Model of `parseFloat(x || 0)`: an empty field parses to `0`. -/
def parseFloatOrZero (x : Option ℚ) : ℚ :=
  match x with
  | none => 0
  | some q => q

/-- Embedding of `handleSubmit` (src/unnamed/part_001 lines 713-769) up to the
`fetch`: the required-field guard returns `none` (alert, nothing sent),
otherwise the request body is built with
`price: isCash || isDividend ? 1 : parseFloat(price)`,
`fee: isBuy || isSell ? parseFloat(fee || 0) : 0`,
`tax: isSell || isDividend ? parseFloat(tax || 0) : 0`. -/
def handleSubmit (f : TxForm) : Option TxRequestBody :=
  match f.portfolioId, f.assetId, f.txType, f.quantity, f.txDate with
  | some _, some _, some t, some q, some _ =>
    let isDividend := t = TxType.dividend
    let isBuy := t = TxType.buy
    let isSell := t = TxType.sell
    if ¬ f.isCashAsset ∧ ¬ isDividend ∧ f.price = none then
      none
    else
      some
        { quantity := q
          price := if f.isCashAsset ∨ isDividend then 1 else parseFloatOrZero f.price
          fee := if isBuy ∨ isSell then parseFloatOrZero f.fee else 0
          tax := if isSell ∨ isDividend then parseFloatOrZero f.tax else 0 }
  | _, _, _, _, _ => none

/-! ## Ledger transaction application (modelled) -/

/-- Simulation-internal portfolio state: cash balance and one quantity per
asset of a fixed universe. -/
structure PState where
  cash : ℚ
  holdings : List ℚ
deriving DecidableEq, Repr

/-- Modelled from the spec: the OrderExecutor's application of a single
ledger transaction to portfolio state is backend code not under src/.  Per
section 4.2, buy/sell move quantity and cash (fees and tax deducted from
cash); dividend and deposit/withdrawal adjust cash directly without affecting
holdings quantities; under the cash-equivalent convention the transaction's
notional is quantity × price. -/
def applyTx (st : PState) (assetIdx : Nat) (t : TxType) (quantity price fee tax : ℚ) :
    PState :=
  match t with
  | TxType.buy =>
      ⟨st.cash - (quantity * price + fee),
       st.holdings.set assetIdx (st.holdings.getD assetIdx 0 + quantity)⟩
  | TxType.sell =>
      ⟨st.cash + (quantity * price - fee - tax),
       st.holdings.set assetIdx (st.holdings.getD assetIdx 0 - quantity)⟩
  | TxType.dividend => ⟨st.cash + (quantity * price - tax), st.holdings⟩
  | TxType.deposit => ⟨st.cash + quantity * price, st.holdings⟩
  | TxType.withdrawal => ⟨st.cash - quantity * price, st.holdings⟩

/-! ## Strategy save validation
(src/unnamed/part_001 `handleSaveStrategy`, lines 183-242) -/

/-- One row of the strategy dialog's asset-weights editor.  The weight text
field is `Option ℚ`: `none` models an input whose `parseFloat` is `NaN`
(non-numeric), `some w` an input parsing to `w`. -/
structure AWEntry where
  asset : String
  weight : Option ℚ
deriving DecidableEq, Repr

/-- The two rejection causes of the asset-weights validation loop. -/
inductive AWError where
  | emptyTicker
  | badWeight (asset : String)
deriving DecidableEq, Repr

/-- Model of JavaScript's `String.prototype.trim`: strip leading and trailing
whitespace (written with structural list recursion so it evaluates). -/
def trimStr (s : String) : String :=
  String.mk (((s.data.dropWhile Char.isWhitespace).reverse.dropWhile
    Char.isWhitespace).reverse)

/-- Embedding of the validation/conversion loop of `handleSaveStrategy`
(src/unnamed/part_001 lines 189-204): each entry with an empty (trimmed)
ticker or a `NaN`/negative weight stops the loop with an error; otherwise the
entries are converted into the asset→weight object sent to the API.  The
surrounding code runs this loop only when the list is non-empty, which the
`[]` case reproduces by succeeding with the empty object. -/
def buildAssetWeights : List AWEntry → Except AWError (List (String × ℚ))
  | [] => Except.ok []
  | e :: rest =>
    if trimStr e.asset = "" then Except.error AWError.emptyTicker
    else
      match e.weight with
      | none => Except.error (AWError.badWeight e.asset)
      | some w =>
        if w < 0 then Except.error (AWError.badWeight e.asset)
        else (buildAssetWeights rest).map (fun ws => (trimStr e.asset, w) :: ws)

/-- Embedding of `handleSaveStrategy` up to the network call: on a validation
error the save is aborted (alert, nothing sent); otherwise the converted
asset-weights object is what gets sent. -/
def handleSaveStrategy (entries : List AWEntry) : Except AWError (List (String × ℚ)) :=
  buildAssetWeights entries

/-! ## Momentum strategy (src/unnamed/part_001 StrategyManager UI; target
allocation modelled from the spec) -/

/-- Embedding of the asset-section heading of the strategy dialog
(src/unnamed/part_001 line 343): momentum strategies edit an asset pool, all
others edit asset weights. -/
def assetSectionHeading (strategyType : String) : String :=
  if strategyType = "momentum" then "Asset Pool" else "Asset Weights"

/-- Embedding of the weight-field visibility condition of the strategy dialog
(src/unnamed/part_001 line 369): the weight text field is rendered only for
non-momentum strategy types. -/
def showWeightField (strategyType : String) : Bool :=
  strategyType != "momentum"

/-- Modelled from the spec: the SignalEngine's momentum target allocation is
backend code not under src/.  Per section 4.1, the target weight is an
equal split among the selected top-N assets and configured per-asset weights
are not consulted (the `configWeights` argument is ignored). -/
def momentumTargetWeight (configWeights : String → ℚ) (selected : List String)
    (a : String) : ℚ :=
  if a ∈ selected then 1 / selected.length else 0

/-! ## Backtest submission and polling
(src/frontend/src/components/PortfolioReturns.jsx `handleBacktest`,
lines 357-428) -/

/-- The status field of `/api/backtest/results/task/` responses as the poll
loop reads it: `SUCCESS` and `FAILURE` are terminal, anything else keeps the
interval alive. -/
inductive TaskStatus where
  | pending
  | success
  | failure
deriving DecidableEq, Repr

/-- A poll status is terminal when it is SUCCESS or FAILURE. -/
def isTerminal (s : TaskStatus) : Bool :=
  match s with
  | TaskStatus.pending => false
  | TaskStatus.success => true
  | TaskStatus.failure => true

/-- The polls actually issued by the `setInterval` loop of `handleBacktest`,
given the sequence of statuses the server would hand out: each response is
observed in order, and the first SUCCESS or FAILURE clears the interval so no
later response is ever requested. -/
def pollsIssued : List TaskStatus → List TaskStatus
  | [] => []
  | s :: rest => s :: (if isTerminal s then [] else pollsIssued rest)

/-- Embedding of `handleBacktest` after the submit call: the task id is taken
from the submit response (`none` models a response without `task_id`, which
throws before any poll); with a task id the poll loop runs against the
status sequence. -/
def handleBacktest (taskId : Option Nat) (responses : List TaskStatus) :
    Except String (List TaskStatus) :=
  match taskId with
  | none => Except.error "Failed to get task ID from backtest request."
  | some _ => Except.ok (pollsIssued responses)

/-! ## MetricsCalculator (modelled from the spec, section 4.4: the metrics
are computed by the backend, which is not under src/) -/

/-- Drawdown sequence with a never-resetting running peak: given the peak of
the values already consumed, emits (V[i] − peak_i)/peak_i for each remaining
value, where peak_i is the running maximum including V[i]. -/
def ddList (peak : ℚ) : List ℚ → List ℚ
  | [] => []
  | v :: rest => (v - max peak v) / max peak v :: ddList (max peak v) rest

/-- Modelled from the spec: max drawdown = min over i of
(V[i] − running-peak(V[0..i])) / running-peak(V[0..i]), the running peak
starting at V[0] and never resetting; 0 for an empty history.  The fold seed 0
coincides with the i = 0 drawdown, so the fold is the minimum over all i. -/
def maxDrawdown (values : List ℚ) : ℚ :=
  match values with
  | [] => 0
  | v :: rest => (ddList v (v :: rest)).foldr min 0

/-- A value series is non-decreasing when each element is at most the next
(written as a Bool-valued check so that it evaluates on concrete series). -/
def isNondecreasing : List ℚ → Bool
  | a :: b :: rest => decide (a ≤ b) && isNondecreasing (b :: rest)
  | _ => true

/-- Daily returns of the tail of a value history given the previous value:
r[i] = V[i]/V[i-1] − 1, treated as 0 when V[i-1] = 0. -/
def dailyReturnsAux (prev : ℚ) : List ℚ → List ℚ
  | [] => []
  | v :: rest => (if prev = 0 then 0 else v / prev - 1) :: dailyReturnsAux v rest

/-- Modelled from the spec: daily return series r[1..n] of a value history. -/
def dailyReturns : List ℚ → List ℚ
  | [] => []
  | v :: rest => dailyReturnsAux v rest

/-- Arithmetic mean of a list of rationals (0 for the empty list). -/
def listMean (l : List ℚ) : ℚ := l.sum / l.length

/-- Sample variance with the n − 1 denominator; 0 when fewer than two
observations (the spec's volatility guard). -/
def sampleVariance (l : List ℚ) : ℚ :=
  if l.length < 2 then 0
  else (l.map (fun x => (x - listMean l) ^ 2)).sum / ((l.length : ℚ) - 1)

/-- Modelled from the spec: volatility = sample stdev of the daily returns
× sqrt(252); 0 when there are fewer than two return observations (the
variance guard already yields 0 there). -/
noncomputable def volatility (values : List ℚ) : ℝ :=
  Real.sqrt (sampleVariance (dailyReturns values)) * Real.sqrt 252

/-- Modelled from the spec: annualized return =
(V[n]/V[0])^(252/n) − 1 with n the count of return observations; 0 when
n = 0. -/
noncomputable def annualizedReturn (values : List ℚ) : ℝ :=
  match values with
  | [] => 0
  | v0 :: rest =>
    if rest.length = 0 then 0
    else Real.rpow (((v0 :: rest).getLastD 0 / v0 : ℚ) : ℝ) ((252 : ℝ) / rest.length) - 1

/-- Modelled from the spec: Sharpe ratio = annualized return / volatility
with risk-free rate 0; reported as exactly 0 when the volatility is 0. -/
noncomputable def sharpe (values : List ℚ) : ℝ :=
  if volatility values = 0 then 0 else annualizedReturn values / volatility values

/-! ## Frontend annualized return
(src/frontend/src/components/PortfolioReturns.jsx `calculateAnnualizedReturn`,
lines 162-180) -/

/-- One element of a `portfolio_value` array: a date (milliseconds since the
epoch, as produced by `new Date(...).getTime()`) and a value. -/
structure PVPoint where
  date : ℚ
  value : ℚ
deriving DecidableEq, Repr

/-- Embedding of `calculateAnnualizedReturn`: 0 for fewer than two points;
otherwise `years` is the calendar span between the first and last dates in
units of 365.25 days, the result is
(lastValue/firstValue)^(1/years) − 1, guarded to 0 when the first value or
the span is non-positive. -/
noncomputable def calculateAnnualizedReturn (pv : List PVPoint) : ℝ :=
  if pv.length < 2 then 0
  else
    let firstValue := (pv.headD ⟨0, 0⟩).value
    let lastValue := (pv.getLastD ⟨0, 0⟩).value
    let years : ℚ :=
      ((pv.getLastD ⟨0, 0⟩).date - (pv.headD ⟨0, 0⟩).date) /
        (1000 * 60 * 60 * 24 * (365.25 : ℚ))
    if firstValue ≤ 0 ∨ years ≤ 0 then 0
    else Real.rpow ((lastValue / firstValue : ℚ) : ℝ) ((1 / years : ℚ) : ℝ) - 1

/-- The claim's own formula, written from its words for comparison with the
source function: annualized return = (V[n]/V[0])^(252/n) − 1 over the value
history, with n the count of return observations, and 0 when n = 0. -/
noncomputable def claimAnnualizedReturn (pv : List PVPoint) : ℝ :=
  match pv with
  | [] => 0
  | p0 :: rest =>
    if rest.length = 0 then 0
    else
      Real.rpow (((p0 :: rest).getLastD ⟨0, 0⟩).value / p0.value : ℝ)
        ((252 : ℝ) / rest.length) - 1

/-- A two-point value history that doubles over exactly one calendar year
(365.25 days = 31,557,600,000 ms). -/
def c1data : List PVPoint := [⟨0, 100⟩, ⟨31557600000, 200⟩]

/-! ## Simulation engine (modelled from the spec, sections 4.2-4.3: the
OrderExecutor and SimulationLoop are backend code not under src/) -/

/-- One asset's data for one simulated day: that day's close price, the
asset's minimum tradable quantity, and the strategy's target weight for the
day. -/
structure SimAsset where
  price : ℚ
  minQty : ℚ
  weight : ℚ
deriving DecidableEq, Repr

/-- One simulated day: whether the SignalEngine declares it a decision day,
and the per-asset data. -/
structure SimDay where
  rebal : Bool
  assets : List SimAsset
deriving DecidableEq, Repr

/-- Modelled from the spec: a desired trade size is floored to the nearest
multiple of the minimum tradable quantity. -/
def floorTo (m x : ℚ) : ℚ := m * ⌊x / m⌋

/-- Pairwise product sum of two quantity/price lists (stops at the shorter). -/
def dot : List ℚ → List ℚ → ℚ
  | x :: xs, y :: ys => x * y + dot xs ys
  | _, _ => 0

/-- Portfolio value at a day's prices: cash + Σ holding.quantity × price. -/
def portValue (cash : ℚ) (qtys : List ℚ) (assets : List SimAsset) : ℚ :=
  cash + dot qtys (assets.map SimAsset.price)

/-- Modelled from the spec: an asset's target quantity for the day,
weight × total value / price. -/
def targetQty (total : ℚ) (a : SimAsset) : ℚ := a.weight * total / a.price

/-- Cash freed by the sell orders (sells execute before buys): for each asset
whose target quantity is below its current quantity, the floored sell size
earns price × size less fee and tax on the notional. -/
def sellProceeds (fee tax total : ℚ) : List (ℚ × SimAsset) → ℚ
  | [] => 0
  | (q, a) :: rest =>
    (if targetQty total a < q
     then floorTo a.minQty (q - targetQty total a) * a.price * (1 - fee - tax)
     else 0)
    + sellProceeds fee tax total rest

/-- Cash the desired (un-scaled) buy orders would consume, fees included. -/
def buyCost (fee total : ℚ) : List (ℚ × SimAsset) → ℚ
  | [] => 0
  | (q, a) :: rest =>
    (if targetQty total a < q then 0 else (targetQty total a - q) * a.price * (1 + fee))
    + buyCost fee total rest

/-- Cash the scaled and floored buy orders actually consume, fees included. -/
def buySpend (fee total factor : ℚ) : List (ℚ × SimAsset) → ℚ
  | [] => 0
  | (q, a) :: rest =>
    (if targetQty total a < q then 0
     else floorTo a.minQty (factor * (targetQty total a - q)) * a.price * (1 + fee))
    + buySpend fee total factor rest

/-- Quantities after the day's orders: sells take the current quantity down
by the floored sell size, buys take it up by the floored scaled buy size. -/
def newQtys (total factor : ℚ) : List (ℚ × SimAsset) → List ℚ
  | [] => []
  | (q, a) :: rest =>
    (if targetQty total a < q then q - floorTo a.minQty (q - targetQty total a)
     else q + floorTo a.minQty (factor * (targetQty total a - q)))
    :: newQtys total factor rest

/-- Modelled from the spec: the OrderExecutor for one decision day.  The
portfolio is marked to market at the day's closes, trade sizes toward the
target allocation are floored to minimum-quantity multiples, sells execute
before buys, and if the post-sell cash cannot fund all desired buys they are
scaled down proportionally so cash is never driven negative; fees apply to
buy and sell notional and tax to sell notional, deducted from cash. -/
def execDay (fee tax cash : ℚ) (qtys : List ℚ) (assets : List SimAsset) :
    ℚ × List ℚ :=
  let ps := qtys.zip assets
  let total := portValue cash qtys assets
  let cashAfterSells := cash + sellProceeds fee tax total ps
  let cost := buyCost fee total ps
  let factor := if cost ≤ cashAfterSells then 1 else cashAfterSells / cost
  (cashAfterSells - buySpend fee total factor ps, newQtys total factor ps)

/-- One recorded simulation day: post-trade cash and quantities, and the
value-history entry appended for the day. -/
structure DayRecord where
  cash : ℚ
  qtys : List ℚ
  value : ℚ
deriving DecidableEq, Repr

/-- Modelled from the spec: the SimulationLoop.  Each day the portfolio is
marked to market; if the SignalEngine declares a decision day the
OrderExecutor runs; the day's value-history record is the post-trade
portfolio value at that day's prices. -/
def runSim (fee tax : ℚ) (cash : ℚ) (qtys : List ℚ) : List SimDay → List DayRecord
  | [] => []
  | d :: rest =>
    let st := if d.rebal then execDay fee tax cash qtys d.assets else (cash, qtys)
    ⟨st.1, st.2, portValue st.1 st.2 d.assets⟩ :: runSim fee tax st.1 st.2 rest

/-! ## Concrete inputs used to settle the claims -/

/-- A non-ok response whose body parses as JSON but has no detail field. -/
def c10resp : HttpResponse :=
  ⟨false, "Internal Server Error", some ⟨none, "\x7b\x7d"⟩⟩

/-- A non-ok response carrying a string detail field. -/
def c10respDetail : HttpResponse :=
  ⟨false, "Bad Request", some ⟨some (DetailField.str "invalid strategy"), "X"⟩⟩

/-- A cash deposit with fee and tax typed into the (hidden) fields. -/
def c5form : TxForm :=
  ⟨some 1, some 1, some TxType.deposit, some 1000, none, some 5, some 7, some 0, true⟩

/-- The request body the deposit form produces. -/
def c5body : TxRequestBody := ⟨1000, 1, 0, 0⟩

/-- A dividend of amount 500 typed into the form (the price field holds a
stale 42 from a previous entry). -/
def c6form : TxForm :=
  ⟨some 1, some 2, some TxType.dividend, some 500, some 42, none, some 3, some 0, false⟩

/-- The request body the dividend form produces. -/
def c6body : TxRequestBody := ⟨500, 1, 0, 3⟩

end Ttnw

namespace Ttnw

/-! ## Helper lemmas -/

theorem sum_map_const (c : ℚ) (l : List String) (f : String → ℚ)
    (h : ∀ x ∈ l, f x = c) : (l.map f).sum = l.length * c := by
  induction l with
  | nil => simp
  | cons x xs ih =>
    simp only [List.map_cons, List.sum_cons, List.length_cons]
    rw [h x (List.mem_cons_self x xs), ih fun y hy => h y (List.mem_cons_of_mem x hy)]
    push_cast
    ring

theorem pollsIssued_append (rs : List TaskStatus) : ∃ t, rs = pollsIssued rs ++ t := by
  induction rs with
  | nil => exact ⟨[], rfl⟩
  | cons s rest ih =>
    by_cases hs : isTerminal s = true
    · exact ⟨rest, by simp [pollsIssued, hs]⟩
    · obtain ⟨t, ht⟩ := ih
      exact ⟨t, by simp only [pollsIssued, Bool.not_eq_true] at hs ⊢; rw [hs]; simpa using ht⟩

theorem pollsIssued_cons_of_terminal {s : TaskStatus} (rest : List TaskStatus)
    (hs : isTerminal s = true) : pollsIssued (s :: rest) = [s] := by
  simp [pollsIssued, hs]

theorem pollsIssued_cons_of_pending {s : TaskStatus} (rest : List TaskStatus)
    (hs : isTerminal s = false) : pollsIssued (s :: rest) = s :: pollsIssued rest := by
  simp [pollsIssued, hs]

theorem pollsIssued_not_terminal (rs : List TaskStatus) :
    (pollsIssued rs).dropLast.all (fun s => !isTerminal s) = true := by
  induction rs with
  | nil => rfl
  | cons s rest ih =>
    cases hs : isTerminal s with
    | true => rw [pollsIssued_cons_of_terminal rest hs]; rfl
    | false =>
      rw [pollsIssued_cons_of_pending rest hs]
      cases hrest : pollsIssued rest with
      | nil => rfl
      | cons b bs =>
        rw [List.dropLast_cons₂, List.all_cons, hs]
        rw [hrest] at ih
        simpa using ih

theorem pollsIssued_all_pending (rs : List TaskStatus)
    (h : ∀ s ∈ rs, isTerminal s = false) : pollsIssued rs = rs := by
  induction rs with
  | nil => rfl
  | cons s rest ih =>
    rw [pollsIssued_cons_of_pending rest (h s (List.mem_cons_self s rest))]
    rw [ih fun x hx => h x (List.mem_cons_of_mem s hx)]

theorem pollsIssued_stops_at_terminal (rs : List TaskStatus)
    (h : ∃ s ∈ rs, isTerminal s = true) :
    ∃ l, (pollsIssued rs).getLast? = some l ∧ isTerminal l = true := by
  induction rs with
  | nil => simp at h
  | cons s rest ih =>
    cases hs : isTerminal s with
    | true => exact ⟨s, by rw [pollsIssued_cons_of_terminal rest hs]; rfl, hs⟩
    | false =>
      obtain ⟨x, hx, hxt⟩ := h
      rcases List.mem_cons.mp hx with rfl | hx'
      · rw [hs] at hxt; cases hxt
      · obtain ⟨l, hl, hlt⟩ := ih ⟨x, hx', hxt⟩
        refine ⟨l, ?_, hlt⟩
        rw [pollsIssued_cons_of_pending rest hs]
        cases hrest : pollsIssued rest with
        | nil => rw [hrest] at hl; cases hl
        | cons b bs => rw [hrest] at hl; rw [List.getLast?_cons_cons]; exact hl

/-! ## Claim theorems -/

/-- C10 (counterexample): the claim says a thrown error's message comes from
the body's detail field or falls back to the status text; but on a non-ok
response whose body parses as JSON without a detail field, `fetchApi` uses
`JSON.stringify(errorData)`, not the status text. -/
theorem c10_counterexample :
    fetchApi c10resp ≠ Except.error c10resp.statusText
    ∧ fetchApi c10resp = Except.error "\x7b\x7d" := by
  constructor
  · intro h
    simp [fetchApi, errorMessageOf, c10resp] at h
  · rfl

/-- C10 (amended): `fetchApi` returns the parsed JSON body of an ok response
unchanged, and throws on every non-ok response with a message that is the
body's detail string, the per-field join of a detail array, the
JSON-stringified body when the body parses without a truthy detail field, or
the status text when the body is unparseable. -/
theorem c10_fetchApi (resp : HttpResponse) :
    (resp.ok = true → ∀ b, resp.body = some b → fetchApi resp = Except.ok b)
    ∧ (resp.ok = false → fetchApi resp = Except.error (errorMessageOf resp))
    ∧ (∀ b s, resp.ok = false → resp.body = some b →
        b.detail = some (DetailField.str s) → fetchApi resp = Except.error s)
    ∧ (∀ b items, resp.ok = false → resp.body = some b →
        b.detail = some (DetailField.arr items) →
        fetchApi resp =
          Except.error (String.intercalate "\n" (items.map fun p => p.1 ++ " - " ++ p.2)))
    ∧ (∀ b, resp.ok = false → resp.body = some b → b.detail = none →
        fetchApi resp = Except.error b.stringified)
    ∧ (resp.ok = false → resp.body = none → fetchApi resp = Except.error resp.statusText) := by
  obtain ⟨ok, st, body⟩ := resp
  refine ⟨?_, ?_, ?_, ?_, ?_, ?_⟩
  · rintro rfl b rfl; rfl
  · rintro rfl; rfl
  · rintro b s rfl rfl hd; simp [fetchApi, errorMessageOf, hd]
  · rintro b items rfl rfl hd; simp [fetchApi, errorMessageOf, hd]
  · rintro b rfl rfl hd; simp [fetchApi, errorMessageOf, hd]
  · rintro rfl rfl; rfl

/-- C10 (witness): a 400 response with a string detail produces exactly that
detail as the error message. -/
theorem c10_witness : fetchApi c10respDetail = Except.error "invalid strategy" :=
  (c10_fetchApi c10respDetail).2.2.1 ⟨some (DetailField.str "invalid strategy"), "X"⟩
    "invalid strategy" rfl rfl rfl

/-- C5: in the request body built by the transaction form, the fee can be
nonzero only for buy/sell transactions and is forced to 0 for every other
type, and the tax can be nonzero only for sell/dividend transactions and is
forced to 0 for every other type. -/
theorem c5_fee_tax_forced (f : TxForm) (b : TxRequestBody)
    (h : handleSubmit f = some b) :
    (b.fee ≠ 0 → f.txType = some TxType.buy ∨ f.txType = some TxType.sell)
    ∧ (∀ t, f.txType = some t → t ≠ TxType.buy → t ≠ TxType.sell → b.fee = 0)
    ∧ (b.tax ≠ 0 → f.txType = some TxType.sell ∨ f.txType = some TxType.dividend)
    ∧ (∀ t, f.txType = some t → t ≠ TxType.sell → t ≠ TxType.dividend → b.tax = 0) := by
  obtain ⟨p, a, tt, q, pr, fe, tx, d, c⟩ := f
  rcases p with _ | p <;> rcases a with _ | a <;> rcases tt with _ | t <;>
    rcases q with _ | q <;> rcases d with _ | d <;>
      simp only [handleSubmit] at h <;> try cases h
  split at h
  · cases h
  · rcases Option.some.injEq .. ▸ h with rfl
    cases t <;>
      refine ⟨fun hfee => ?_, fun t' ht' h1 h2 => ?_, fun htax => ?_, fun t' ht' h1 h2 => ?_⟩ <;>
        simp_all

/-- C5 (witness): a deposit with values typed into the fee and tax fields is
sent with fee 0 and tax 0. -/
theorem c5_witness : c5body.fee = 0 ∧ c5body.tax = 0 :=
  ⟨(c5_fee_tax_forced c5form c5body (by decide)).2.1 TxType.deposit rfl
      (by decide) (by decide),
   (c5_fee_tax_forced c5form c5body (by decide)).2.2.2 TxType.deposit rfl
      (by decide) (by decide)⟩

/-- C6 (counterexample): the claim says the price field of a dividend carries
the dividend amount; but the form forces the price to 1 for dividends (the
quantity field carries the amount), so for a 500-unit dividend the submitted
price is 1 ≠ 500. -/
theorem c6_counterexample :
    handleSubmit c6form = some c6body
    ∧ c6body.quantity = 500 ∧ c6body.price = 1
    ∧ c6body.price ≠ c6body.quantity := by
  refine ⟨by decide, rfl, rfl, by decide⟩

/-- C6 (amended): dividend, deposit and withdrawal transactions adjust cash
without changing any holding quantity; for a dividend the submitted price is
forced to the cash-equivalent unit price 1, and the quantity field carries
the dividend cash amount. -/
theorem c6_dividend_cash (st : PState) (i : Nat) (q p fe tx : ℚ) (t : TxType)
    (ht : t = TxType.dividend ∨ t = TxType.deposit ∨ t = TxType.withdrawal)
    (f : TxForm) (b : TxRequestBody) (hf : handleSubmit f = some b)
    (hd : f.txType = some TxType.dividend) :
    (applyTx st i t q p fe tx).holdings = st.holdings
    ∧ b.price = 1 ∧ f.quantity = some b.quantity := by
  have happ : (applyTx st i t q p fe tx).holdings = st.holdings := by
    rcases ht with rfl | rfl | rfl <;> rfl
  obtain ⟨p', a', tt, q', pr, fe', tx', d', c'⟩ := f
  simp only [Option.some.injEq] at hd
  rcases p' with _ | p' <;> rcases a' with _ | a' <;> rcases tt with _ | t' <;>
    rcases q' with _ | q' <;> rcases d' with _ | d' <;>
      simp only [handleSubmit] at hf <;> try cases hf
  cases hd
  split at hf
  · cases hf
  · rcases Option.some.injEq .. ▸ hf with rfl
    exact ⟨happ, by simp, rfl⟩

/-- C6 (witness): the concrete dividend of `c6form` leaves holdings unchanged
when applied, carries price 1, and the form's quantity field is the request
quantity. -/
theorem c6_witness :
    (applyTx ⟨100, [3, 4]⟩ 0 TxType.dividend 500 1 0 3).holdings = [3, 4]
    ∧ c6body.price = 1 ∧ c6form.quantity = some c6body.quantity :=
  c6_dividend_cash ⟨100, [3, 4]⟩ 0 500 1 0 3 TxType.dividend (Or.inl rfl)
    c6form c6body (by decide) rfl

/-- C7 (counterexample): the claim says an empty asset list is rejected as an
invalid combination before the save is sent; but the validation loop of
`handleSaveStrategy` only runs over a non-empty list, so the empty list
passes validation and the save proceeds with an empty weights object. -/
theorem c7_counterexample : handleSaveStrategy [] = Except.ok [] := rfl

/-- C7 (amended): whenever the save proceeds (validation succeeds), every
asset-weight entry has a non-empty trimmed ticker and a parsed, non-negative
weight — equivalently, any entry with an empty ticker or a negative or
non-numeric weight causes the save to be rejected; an empty asset list,
however, is not rejected client-side. -/
theorem c7_validation (entries : List AWEntry) (ws : List (String × ℚ))
    (h : handleSaveStrategy entries = Except.ok ws) :
    ∀ e ∈ entries, trimStr e.asset ≠ "" ∧ ∃ w, e.weight = some w ∧ 0 ≤ w := by
  induction entries generalizing ws with
  | nil => intro e he; exact absurd he (List.not_mem_nil e)
  | cons e rest ih =>
    intro e' he'
    rw [handleSaveStrategy, buildAssetWeights] at h
    by_cases hne : trimStr e.asset = ""
    · rw [if_pos hne] at h; cases h
    · rw [if_neg hne] at h
      cases hw : e.weight with
      | none => rw [hw] at h; cases h
      | some w =>
        rw [hw] at h
        dsimp only at h
        by_cases hwlt : w < 0
        · rw [if_pos hwlt] at h; cases h
        · rw [if_neg hwlt] at h
          cases hrest : buildAssetWeights rest with
          | error err => rw [hrest] at h; cases h
          | ok ws' =>
            rw [hrest] at h
            rcases List.mem_cons.mp he' with rfl | he''
            · exact ⟨hne, w, hw, not_lt.mp hwlt⟩
            · exact ih ws' hrest e' he''

/-- C7 (witness): a single well-formed entry passes validation. -/
theorem c7_witness :
    trimStr (AWEntry.mk "AAPL" (some 2)).asset ≠ ""
    ∧ ∃ w, (AWEntry.mk "AAPL" (some 2)).weight = some w ∧ 0 ≤ w :=
  c7_validation [⟨"AAPL", some 2⟩] [("AAPL", 2)] (by rfl)
    ⟨"AAPL", some 2⟩ (List.mem_singleton.mpr rfl)

/-- C8: the momentum target weight is an equal split among the selected
assets, any configured per-asset weights are ignored (two arbitrary weight
maps give the same target), the selected weights sum to 1 for a non-empty
selection, and the strategy editor hides the weight field for momentum
assets under an Asset Pool heading. -/
theorem c8_momentum (w₁ w₂ : String → ℚ) (selected : List String) (a : String) :
    momentumTargetWeight w₁ selected a = momentumTargetWeight w₂ selected a
    ∧ (a ∈ selected → momentumTargetWeight w₁ selected a = 1 / selected.length)
    ∧ (selected ≠ [] → (selected.map (momentumTargetWeight w₁ selected)).sum = 1)
    ∧ showWeightField "momentum" = false
    ∧ assetSectionHeading "momentum" = "Asset Pool" := by
  refine ⟨rfl, fun h => by simp [momentumTargetWeight, h], fun h => ?_, by decide, by decide⟩
  rw [sum_map_const (1 / selected.length) selected _
      fun x hx => by simp [momentumTargetWeight, hx]]
  rw [mul_one_div, div_self]
  exact_mod_cast fun h0 => h (List.length_eq_zero.mp (by exact_mod_cast h0))

/-- C8 (witness): for the two-asset pool of A and B each selected asset gets
weight 1/2 regardless of a configured weight map, and the weights sum to 1. -/
theorem c8_witness :
    momentumTargetWeight (fun _ => (5 : ℚ)) ["A", "B"] "A" = 1 / (["A", "B"] : List String).length
    ∧ ((["A", "B"] : List String).map (momentumTargetWeight (fun _ => (5 : ℚ)) ["A", "B"])).sum = 1 :=
  ⟨(c8_momentum (fun _ => (5 : ℚ)) (fun _ => (7 : ℚ)) ["A", "B"] "A").2.1 (by simp),
   (c8_momentum (fun _ => (5 : ℚ)) (fun _ => (7 : ℚ)) ["A", "B"] "A").2.2.1 (by simp)⟩

/-- C9: after a task id is obtained, the status is polled repeatedly; every
poll except possibly the last observes a pending status (no poll is issued
after a terminal status), polling continues through an all-pending sequence,
and when a terminal SUCCESS/FAILURE status occurs the last poll issued is
exactly that terminal observation; without a task id, no poll happens at
all. -/
theorem c9_polling (taskId : Option Nat) (rs polls : List TaskStatus)
    (h : handleBacktest taskId rs = Except.ok polls) :
    (∃ t, rs = polls ++ t)
    ∧ polls.dropLast.all (fun s => !isTerminal s) = true
    ∧ ((∀ s ∈ rs, isTerminal s = false) → polls = rs)
    ∧ ((∃ s ∈ rs, isTerminal s = true) →
        ∃ l, polls.getLast? = some l ∧ isTerminal l = true) := by
  cases taskId with
  | none => cases h
  | some tid =>
    have hp : polls = pollsIssued rs := by
      simpa [handleBacktest] using h.symm
    subst hp
    exact ⟨pollsIssued_append rs, pollsIssued_not_terminal rs,
      pollsIssued_all_pending rs, pollsIssued_stops_at_terminal rs⟩

theorem floorTo_le (m x : ℚ) (hm : 0 < m) : floorTo m x ≤ x := by
  rw [floorTo]
  calc m * (⌊x / m⌋ : ℚ) ≤ m * (x / m) :=
        mul_le_mul_of_nonneg_left (Int.floor_le _) hm.le
    _ = x := by rw [mul_comm, div_mul_cancel₀ x (ne_of_gt hm)]

theorem floorTo_nonneg (m x : ℚ) (hm : 0 < m) (hx : 0 ≤ x) : 0 ≤ floorTo m x := by
  rw [floorTo]
  have h1 : (0 : ℤ) ≤ ⌊x / m⌋ := Int.le_floor.mpr (by simpa using div_nonneg hx hm.le)
  have h2 : (0 : ℚ) ≤ (⌊x / m⌋ : ℚ) := by exact_mod_cast h1
  exact mul_nonneg hm.le h2

theorem dot_nonneg (xs ys : List ℚ) (hx : ∀ x ∈ xs, 0 ≤ x) (hy : ∀ y ∈ ys, 0 ≤ y) :
    0 ≤ dot xs ys := by
  induction xs generalizing ys with
  | nil => exact le_of_eq rfl
  | cons x xs ih =>
    cases ys with
    | nil => exact le_of_eq rfl
    | cons y ys =>
      show 0 ≤ x * y + dot xs ys
      refine add_nonneg (mul_nonneg (hx x (List.mem_cons_self x xs)) (hy y (List.mem_cons_self y ys))) ?_
      exact ih ys (fun a haa => hx a (List.mem_cons_of_mem x haa))
        (fun b hb => hy b (List.mem_cons_of_mem y hb))

theorem targetQty_nonneg (total : ℚ) (a : SimAsset) (ht : 0 ≤ total)
    (hw : 0 ≤ a.weight) (hp : 0 < a.price) : 0 ≤ targetQty total a :=
  div_nonneg (mul_nonneg hw ht) hp.le

theorem sellProceeds_nonneg (fee tax total : ℚ) (hft : fee + tax ≤ 1)
    (ps : List (ℚ × SimAsset))
    (hps : ∀ p ∈ ps, 0 < p.2.price ∧ 0 < p.2.minQty) :
    0 ≤ sellProceeds fee tax total ps := by
  induction ps with
  | nil => exact le_of_eq rfl
  | cons p rest ih =>
    obtain ⟨q, a⟩ := p
    have hpa := hps (q, a) (List.mem_cons_self _ rest)
    show 0 ≤ (if targetQty total a < q
        then floorTo a.minQty (q - targetQty total a) * a.price * (1 - fee - tax) else 0)
      + sellProceeds fee tax total rest
    refine add_nonneg ?_ (ih fun p hp => hps p (List.mem_cons_of_mem _ hp))
    split
    · rename_i hlt
      refine mul_nonneg (mul_nonneg ?_ hpa.1.le) (by linarith)
      exact floorTo_nonneg _ _ hpa.2 (by linarith)
    · exact le_rfl

theorem buyCost_nonneg (fee total : ℚ) (hf : 0 ≤ fee) (ps : List (ℚ × SimAsset))
    (hps : ∀ p ∈ ps, 0 < p.2.price) : 0 ≤ buyCost fee total ps := by
  induction ps with
  | nil => exact le_of_eq rfl
  | cons p rest ih =>
    obtain ⟨q, a⟩ := p
    have hpa := hps (q, a) (List.mem_cons_self _ rest)
    show 0 ≤ (if targetQty total a < q then 0
        else (targetQty total a - q) * a.price * (1 + fee))
      + buyCost fee total rest
    refine add_nonneg ?_ (ih fun p hp => hps p (List.mem_cons_of_mem _ hp))
    split
    · exact le_rfl
    · rename_i hge
      refine mul_nonneg (mul_nonneg ?_ hpa.le) (by linarith)
      linarith [not_lt.mp hge]

theorem buySpend_le_factor (fee total factor : ℚ) (hf : 0 ≤ fee) (hfa : 0 ≤ factor)
    (ps : List (ℚ × SimAsset))
    (hps : ∀ p ∈ ps, 0 < p.2.price ∧ 0 < p.2.minQty) :
    buySpend fee total factor ps ≤ factor * buyCost fee total ps := by
  induction ps with
  | nil => show (0 : ℚ) ≤ factor * 0; simp
  | cons p rest ih =>
    obtain ⟨q, a⟩ := p
    have hpa := hps (q, a) (List.mem_cons_self _ rest)
    show (if targetQty total a < q then 0
        else floorTo a.minQty (factor * (targetQty total a - q)) * a.price * (1 + fee))
      + buySpend fee total factor rest
      ≤ factor * ((if targetQty total a < q then 0
          else (targetQty total a - q) * a.price * (1 + fee))
        + buyCost fee total rest)
    rw [mul_add factor]
    refine add_le_add ?_ (ih fun p hp => hps p (List.mem_cons_of_mem _ hp))
    split
    · simp
    · rename_i hge
      have hdq : 0 ≤ targetQty total a - q := by linarith [not_lt.mp hge]
      have h1 : floorTo a.minQty (factor * (targetQty total a - q))
          ≤ factor * (targetQty total a - q) := floorTo_le _ _ hpa.2
      have h2 : (0 : ℚ) ≤ a.price * (1 + fee) := mul_nonneg hpa.1.le (by linarith)
      calc floorTo a.minQty (factor * (targetQty total a - q)) * a.price * (1 + fee)
          = floorTo a.minQty (factor * (targetQty total a - q)) * (a.price * (1 + fee)) := by
            ring
        _ ≤ factor * (targetQty total a - q) * (a.price * (1 + fee)) :=
            mul_le_mul_of_nonneg_right h1 h2
        _ = factor * ((targetQty total a - q) * a.price * (1 + fee)) := by ring

theorem scaledSpend_le (fee total cash1 : ℚ) (ps : List (ℚ × SimAsset))
    (hf : 0 ≤ fee) (hc1 : 0 ≤ cash1)
    (hps : ∀ p ∈ ps, 0 < p.2.price ∧ 0 < p.2.minQty) :
    buySpend fee total
      (if buyCost fee total ps ≤ cash1 then 1 else cash1 / buyCost fee total ps) ps
    ≤ cash1 := by
  have hcost : 0 ≤ buyCost fee total ps :=
    buyCost_nonneg fee total hf ps fun p hp => (hps p hp).1
  by_cases h : buyCost fee total ps ≤ cash1
  · rw [if_pos h]
    calc buySpend fee total 1 ps ≤ 1 * buyCost fee total ps :=
          buySpend_le_factor fee total 1 hf zero_le_one ps hps
      _ = buyCost fee total ps := one_mul _
      _ ≤ cash1 := h
  · rw [if_neg h]
    have hpos : 0 < buyCost fee total ps := lt_of_le_of_lt hc1 (not_le.mp h)
    calc buySpend fee total (cash1 / buyCost fee total ps) ps
        ≤ cash1 / buyCost fee total ps * buyCost fee total ps :=
          buySpend_le_factor fee total _ hf (div_nonneg hc1 hpos.le) ps hps
      _ = cash1 := div_mul_cancel₀ _ (ne_of_gt hpos)

theorem newQtys_nonneg (total factor : ℚ) (ht : 0 ≤ total) (hfa : 0 ≤ factor)
    (ps : List (ℚ × SimAsset))
    (hps : ∀ p ∈ ps, 0 ≤ p.1 ∧ 0 < p.2.price ∧ 0 < p.2.minQty ∧ 0 ≤ p.2.weight) :
    ∀ q ∈ newQtys total factor ps, 0 ≤ q := by
  induction ps with
  | nil => intro q hq; cases hq
  | cons p rest ih =>
    obtain ⟨q, a⟩ := p
    have hpa := hps (q, a) (List.mem_cons_self _ rest)
    intro x hx
    rcases List.mem_cons.mp hx with rfl | hx'
    · split
      · rename_i hlt
        have h1 : floorTo a.minQty (q - targetQty total a) ≤ q - targetQty total a :=
          floorTo_le _ _ hpa.2.2.1
        have h2 : 0 ≤ targetQty total a :=
          targetQty_nonneg total a ht hpa.2.2.2 hpa.2.1
        linarith
      · rename_i hge
        have hdq : 0 ≤ targetQty total a - q := by linarith [not_lt.mp hge]
        have h1 : 0 ≤ floorTo a.minQty (factor * (targetQty total a - q)) :=
          floorTo_nonneg _ _ hpa.2.2.1 (mul_nonneg hfa hdq)
        linarith [hpa.1]
    · exact ih (fun p hp => hps p (List.mem_cons_of_mem _ hp)) x hx'

theorem execDay_spec (fee tax cash : ℚ) (qtys : List ℚ) (assets : List SimAsset)
    (hf : 0 ≤ fee) (htx : 0 ≤ tax) (hft : fee + tax ≤ 1)
    (hc : 0 ≤ cash) (hq : ∀ q ∈ qtys, 0 ≤ q)
    (ha : ∀ a ∈ assets, 0 < a.price ∧ 0 < a.minQty ∧ 0 ≤ a.weight) :
    0 ≤ (execDay fee tax cash qtys assets).1
    ∧ ∀ q ∈ (execDay fee tax cash qtys assets).2, 0 ≤ q := by
  have hps : ∀ p ∈ qtys.zip assets,
      0 ≤ p.1 ∧ 0 < p.2.price ∧ 0 < p.2.minQty ∧ 0 ≤ p.2.weight := by
    intro p hp
    obtain ⟨q, a⟩ := p
    have h1 := List.of_mem_zip hp
    exact ⟨hq q h1.1, (ha a h1.2).1, (ha a h1.2).2.1, (ha a h1.2).2.2⟩
  have hps2 : ∀ p ∈ qtys.zip assets, 0 < p.2.price ∧ 0 < p.2.minQty :=
    fun p hp => ⟨(hps p hp).2.1, (hps p hp).2.2.1⟩
  have htotal : 0 ≤ portValue cash qtys assets := by
    refine add_nonneg hc (dot_nonneg _ _ hq ?_)
    intro y hy
    obtain ⟨a, haa, rfl⟩ := List.mem_map.mp hy
    exact (ha a haa).1.le
  have hsell : 0 ≤ sellProceeds fee tax (portValue cash qtys assets) (qtys.zip assets) :=
    sellProceeds_nonneg fee tax _ hft _ hps2
  have hcash1 : 0 ≤ cash + sellProceeds fee tax (portValue cash qtys assets) (qtys.zip assets) :=
    add_nonneg hc hsell
  have hcost : 0 ≤ buyCost fee (portValue cash qtys assets) (qtys.zip assets) :=
    buyCost_nonneg fee _ hf _ fun p hp => (hps2 p hp).1
  have hfac : 0 ≤ (if buyCost fee (portValue cash qtys assets) (qtys.zip assets)
        ≤ cash + sellProceeds fee tax (portValue cash qtys assets) (qtys.zip assets)
      then 1
      else (cash + sellProceeds fee tax (portValue cash qtys assets) (qtys.zip assets)) /
        buyCost fee (portValue cash qtys assets) (qtys.zip assets)) := by
    split
    · exact zero_le_one
    · exact div_nonneg hcash1 hcost
  constructor
  · have hspend := scaledSpend_le fee (portValue cash qtys assets)
      (cash + sellProceeds fee tax (portValue cash qtys assets) (qtys.zip assets))
      (qtys.zip assets) hf hcash1 hps2
    show 0 ≤ cash + sellProceeds fee tax (portValue cash qtys assets) (qtys.zip assets)
      - buySpend fee (portValue cash qtys assets)
        (if buyCost fee (portValue cash qtys assets) (qtys.zip assets)
            ≤ cash + sellProceeds fee tax (portValue cash qtys assets) (qtys.zip assets)
          then 1
          else (cash + sellProceeds fee tax (portValue cash qtys assets) (qtys.zip assets)) /
            buyCost fee (portValue cash qtys assets) (qtys.zip assets)) (qtys.zip assets)
    linarith [hspend]
  · exact newQtys_nonneg _ _ htotal hfac _ hps

theorem foldr_min_le_init (l : List ℚ) (a : ℚ) : l.foldr min a ≤ a := by
  induction l with
  | nil => exact le_rfl
  | cons x xs ih => exact le_trans (min_le_right x _) ih

theorem foldr_min_replicate_zero (n : Nat) :
    (List.replicate n (0 : ℚ)).foldr min 0 = 0 := by
  induction n with
  | zero => rfl
  | succ m ih => simp [List.replicate_succ, ih]

theorem ddList_nondec (peak v : ℚ) (rest : List ℚ) (hpv : peak ≤ v)
    (hnd : isNondecreasing (v :: rest) = true) :
    ddList peak (v :: rest) = List.replicate (rest.length + 1) 0 := by
  induction rest generalizing peak v with
  | nil => simp [ddList, max_eq_right hpv]
  | cons b bs ih =>
    have h1 : v ≤ b ∧ isNondecreasing (b :: bs) = true := by
      simpa [isNondecreasing, Bool.and_eq_true, decide_eq_true_eq] using hnd
    rw [ddList, max_eq_right hpv, sub_self, zero_div, ih v b h1.1 h1.2]
    simp [List.replicate_succ]

theorem dailyReturnsAux_const (v : ℚ) (m : Nat) :
    dailyReturnsAux v (List.replicate m v) = List.replicate m 0 := by
  induction m with
  | zero => rfl
  | succ n ih =>
    simp only [List.replicate_succ, dailyReturnsAux, ih]
    by_cases hv : v = 0 <;> simp [hv, div_self]

theorem sampleVariance_replicate_zero (m : Nat) :
    sampleVariance (List.replicate m 0) = 0 := by
  unfold sampleVariance
  split
  · rfl
  · simp [listMean, List.sum_replicate]

theorem volatility_replicate (n : Nat) (v : ℚ) :
    volatility (List.replicate n v) = 0 := by
  unfold volatility
  cases n with
  | zero => simp [dailyReturns, sampleVariance]
  | succ m =>
    rw [List.replicate_succ]
    show Real.sqrt (sampleVariance (dailyReturnsAux v (List.replicate m v))) * _ = 0
    rw [dailyReturnsAux_const, sampleVariance_replicate_zero]
    simp

/-- C2: along any simulated strategy run (any per-day target allocation with
non-negative weights, positive prices and positive minimum lots, with fee and
tax rates that are non-negative and sum to at most 1), every recorded
value-history entry equals the cash balance plus the sum over holdings of
quantity × that day's price, no holding quantity is ever negative, and cash
never goes negative. -/
theorem c2_invariant (fee tax : ℚ) (hf : 0 ≤ fee) (htx : 0 ≤ tax) (hft : fee + tax ≤ 1)
    (days : List SimDay) (cash : ℚ) (qtys : List ℚ)
    (hc : 0 ≤ cash) (hq : ∀ q ∈ qtys, 0 ≤ q)
    (hdays : ∀ d ∈ days, ∀ a ∈ d.assets, 0 < a.price ∧ 0 < a.minQty ∧ 0 ≤ a.weight)
    (i : Nat) (hi : i < days.length) :
    ((runSim fee tax cash qtys days).getD i ⟨0, [], 0⟩).value =
      portValue ((runSim fee tax cash qtys days).getD i ⟨0, [], 0⟩).cash
        ((runSim fee tax cash qtys days).getD i ⟨0, [], 0⟩).qtys
        (days.getD i ⟨false, []⟩).assets
    ∧ (∀ q ∈ ((runSim fee tax cash qtys days).getD i ⟨0, [], 0⟩).qtys, 0 ≤ q)
    ∧ 0 ≤ ((runSim fee tax cash qtys days).getD i ⟨0, [], 0⟩).cash := by
  revert hc hq hdays i
  induction days generalizing cash qtys with
  | nil =>
    intro _ _ _ i hi
    simp at hi
  | cons d rest ih =>
    intro hc hq hdays i hi
    have hd := hdays d (List.mem_cons_self d rest)
    have hrest : ∀ d' ∈ rest, ∀ a ∈ d'.assets, 0 < a.price ∧ 0 < a.minQty ∧ 0 ≤ a.weight :=
      fun d' hd' => hdays d' (List.mem_cons_of_mem d hd')
    cases hreb : d.rebal with
    | false =>
      have hrun : runSim fee tax cash qtys (d :: rest)
          = ⟨cash, qtys, portValue cash qtys d.assets⟩ :: runSim fee tax cash qtys rest := by
        simp [runSim, hreb]
      cases i with
      | zero =>
        rw [hrun]
        exact ⟨rfl, hq, hc⟩
      | succ j =>
        rw [hrun]
        simp only [List.getD_cons_succ]
        exact ih cash qtys hc hq hrest j (Nat.lt_of_succ_lt_succ hi)
    | true =>
      have hspec := execDay_spec fee tax cash qtys d.assets hf htx hft hc hq hd
      have hrun : runSim fee tax cash qtys (d :: rest)
          = ⟨(execDay fee tax cash qtys d.assets).1, (execDay fee tax cash qtys d.assets).2,
              portValue (execDay fee tax cash qtys d.assets).1
                (execDay fee tax cash qtys d.assets).2 d.assets⟩
            :: runSim fee tax (execDay fee tax cash qtys d.assets).1
                (execDay fee tax cash qtys d.assets).2 rest := by
        simp [runSim, hreb]
      cases i with
      | zero =>
        rw [hrun]
        exact ⟨rfl, hspec.2, hspec.1⟩
      | succ j =>
        rw [hrun]
        simp only [List.getD_cons_succ]
        exact ih (execDay fee tax cash qtys d.assets).1 (execDay fee tax cash qtys d.assets).2
          hspec.1 hspec.2 hrest j (Nat.lt_of_succ_lt_succ hi)

/-- C2 (witness): a one-asset decision day (price 10, lot 1, target weight
one half, no fees) starting from cash 100 and one share satisfies the
recorded-value and non-negativity invariants. -/
theorem c2_witness :
    ((runSim 0 0 100 [1] [⟨true, [⟨10, 1, 1 / 2⟩]⟩]).getD 0 ⟨0, [], 0⟩).value =
      portValue ((runSim 0 0 100 [1] [⟨true, [⟨10, 1, 1 / 2⟩]⟩]).getD 0 ⟨0, [], 0⟩).cash
        ((runSim 0 0 100 [1] [⟨true, [⟨10, 1, 1 / 2⟩]⟩]).getD 0 ⟨0, [], 0⟩).qtys
        (([⟨true, [⟨10, 1, 1 / 2⟩]⟩] : List SimDay).getD 0 ⟨false, []⟩).assets
    ∧ (∀ q ∈ ((runSim 0 0 100 [1] [⟨true, [⟨10, 1, 1 / 2⟩]⟩]).getD 0 ⟨0, [], 0⟩).qtys, 0 ≤ q)
    ∧ 0 ≤ ((runSim 0 0 100 [1] [⟨true, [⟨10, 1, 1 / 2⟩]⟩]).getD 0 ⟨0, [], 0⟩).cash :=
  c2_invariant 0 0 le_rfl le_rfl (by norm_num) [⟨true, [⟨10, 1, 1 / 2⟩]⟩] 100 [1]
    (by norm_num) (by simp) (by norm_num) 0 (by simp)

/-- C3: the max drawdown (the minimum over i of the value's drop from its
never-resetting running peak, as a fraction of the peak) is always ≤ 0, and
equals 0 for every non-decreasing value series. -/
theorem c3_maxDrawdown (V : List ℚ) :
    maxDrawdown V ≤ 0 ∧ (isNondecreasing V = true → maxDrawdown V = 0) := by
  constructor
  · cases V with
    | nil => exact le_rfl
    | cons v rest =>
      show (ddList v (v :: rest)).foldr min 0 ≤ 0
      exact foldr_min_le_init _ 0
  · intro h
    cases V with
    | nil => rfl
    | cons v rest =>
      show (ddList v (v :: rest)).foldr min 0 = 0
      rw [ddList_nondec v v rest le_rfl h]
      exact foldr_min_replicate_zero _

/-- C3 (witness): the strictly increasing series 1, 2, 3 has max drawdown 0. -/
theorem c3_witness : maxDrawdown [(1 : ℚ), 2, 3] = 0 :=
  (c3_maxDrawdown [1, 2, 3]).2 (by decide)

/-- C4: the Sharpe ratio is annualized return divided by volatility (risk-free
rate 0) whenever the volatility is nonzero, is reported as exactly 0 whenever
the volatility is 0, and a constant value series has both volatility 0 and
Sharpe 0 (in this real-valued model no infinity or NaN can arise). -/
theorem c4_sharpe (V : List ℚ) (v : ℚ) (n : Nat) :
    (volatility V = 0 → sharpe V = 0)
    ∧ (volatility V ≠ 0 → sharpe V = annualizedReturn V / volatility V)
    ∧ volatility (List.replicate n v) = 0
    ∧ sharpe (List.replicate n v) = 0 := by
  refine ⟨fun h => by rw [sharpe, if_pos h], fun h => by rw [sharpe, if_neg h], ?_, ?_⟩
  · exact volatility_replicate n v
  · rw [sharpe, if_pos (volatility_replicate n v)]

/-- C4 (witness): the constant series 1, 1, 1 has volatility 0 and the Sharpe
guard then reports 0. -/
theorem c4_witness :
    volatility (List.replicate 3 (1 : ℚ)) = 0 ∧ sharpe (List.replicate 3 (1 : ℚ)) = 0 :=
  ⟨(c4_sharpe (List.replicate 3 (1 : ℚ)) 1 3).2.2.1,
   (c4_sharpe (List.replicate 3 (1 : ℚ)) 1 3).1
     ((c4_sharpe (List.replicate 3 (1 : ℚ)) 1 3).2.2.1)⟩

/-- C1 (counterexample): the claim says the reported annualized return is
(V[n]/V[0])^(252/n) − 1; but `calculateAnnualizedReturn` uses calendar years
((last date − first date) / 365.25 days) in the exponent, so on a history
that doubles over exactly one calendar year in a single step the code reports
2^1 − 1 = 1 while the claim's formula gives 2^252 − 1. -/
theorem c1_counterexample :
    calculateAnnualizedReturn c1data ≠ claimAnnualizedReturn c1data := by
  have hL : calculateAnnualizedReturn c1data = 1 := by
    simp only [c1data, calculateAnnualizedReturn, List.headD, List.getLastD, List.getLast]
    norm_num
  have hR : claimAnnualizedReturn c1data = 2 ^ (252 : ℕ) - 1 := by
    simp only [c1data, claimAnnualizedReturn]
    norm_num
  rw [hL, hR]
  norm_num

/-- C1 (amended): `calculateAnnualizedReturn` reports 0 for fewer than two
observations (in particular when there are no return observations), and
otherwise — when the first value and the calendar span are positive — reports
(V[n]/V[0])^(1/years) − 1 with years the calendar time between the first and
last dates divided by 365.25 days, not the claimed 252-per-trading-day
exponent. -/
theorem c1_annualized (pv : List PVPoint) :
    (pv.length < 2 → calculateAnnualizedReturn pv = 0)
    ∧ (2 ≤ pv.length →
        0 < (pv.headD ⟨0, 0⟩).value →
        0 < ((pv.getLastD ⟨0, 0⟩).date - (pv.headD ⟨0, 0⟩).date) / (31557600000 : ℚ) →
        calculateAnnualizedReturn pv =
          Real.rpow (((pv.getLastD ⟨0, 0⟩).value / (pv.headD ⟨0, 0⟩).value : ℚ) : ℝ)
            (((1 : ℚ) /
              (((pv.getLastD ⟨0, 0⟩).date - (pv.headD ⟨0, 0⟩).date) / (31557600000 : ℚ)) : ℚ) : ℝ)
          - 1) := by
  constructor
  · intro h
    rw [calculateAnnualizedReturn, if_pos h]
  · intro hlen hfirst hyears
    rw [calculateAnnualizedReturn, if_neg (not_lt.mpr hlen)]
    have hden : (1000 * 60 * 60 * 24 * (365.25 : ℚ)) = 31557600000 := by norm_num
    rw [hden]
    rw [if_neg (by push_neg; exact ⟨hfirst, hyears⟩)]

/-- C1 (witness): on the concrete one-year doubling history the code reports
(200/100)^(1/1) − 1. -/
theorem c1_witness :
    calculateAnnualizedReturn c1data =
      Real.rpow (((c1data.getLastD ⟨0, 0⟩).value / (c1data.headD ⟨0, 0⟩).value : ℚ) : ℝ)
        (((1 : ℚ) /
          (((c1data.getLastD ⟨0, 0⟩).date - (c1data.headD ⟨0, 0⟩).date) / (31557600000 : ℚ)) : ℚ) : ℝ)
      - 1 :=
  (c1_annualized c1data).2 (by decide) (by norm_num [c1data]) (by norm_num [c1data])

/-- C9 (witness): with a task id and an all-pending status sequence, every
status is polled. -/
theorem c9_witness :
    pollsIssued [TaskStatus.pending, TaskStatus.pending] =
      [TaskStatus.pending, TaskStatus.pending] :=
  (c9_polling (some 1) [TaskStatus.pending, TaskStatus.pending]
      (pollsIssued [TaskStatus.pending, TaskStatus.pending]) rfl).2.2.1 (by decide)

end Ttnw
